import Mathlib

/-!
Verification development for the configuration-resolution engine of a
command-line torrent tool (`_configfile.py`): the INI-style file reader
`read`, the schema-driven `validate`, and the precedence combiner `combine`.
Lines of text are modelled as lists of characters.
-/

/-- Lines, keys and values are lists of characters (Python strings). -/
abbrev Str := List Char

/-- Python `str.strip()`: drop leading and trailing whitespace. -/
def pyStrip (l : Str) : Str :=
  ((l.dropWhile Char.isWhitespace).reverse.dropWhile Char.isWhitespace).reverse

/-- Atomic values inside a list: in the file reader, a list can start with the
boolean `True` (a bare flag later reassigned) and otherwise holds strings. -/
inductive Atom where
  | b (v : Bool)
  | s (v : Str)
deriving DecidableEq, Repr

/-- A leaf value of a configuration mapping: boolean, string, or list. -/
inductive SVal where
  | b (v : Bool)
  | s (v : Str)
  | l (xs : List Atom)
deriving DecidableEq, Repr

/-- A top-level value: either a leaf or a profile sub-mapping.  The files
produced by `read` nest profiles exactly one level deep. -/
inductive Val where
  | sval (v : SVal)
  | sub (m : List (Str × SVal))
deriving DecidableEq, Repr

/-- A flat scope: option name to leaf value (Python sub-dictionary). -/
abbrev SubCfg := List (Str × SVal)

/-- A top-level mapping: option name to leaf value or profile. -/
abbrev Cfg := List (Str × Val)

/-- Dictionary lookup on an association list (Python `d[k]` / `k in d`). -/
def dLookup {α : Type} (m : List (Str × α)) (k : Str) : Option α :=
  match m with
  | [] => none
  | (k2, v) :: rest => if k2 = k then some v else dLookup rest k

/-- Dictionary assignment `d[k] = v`: update in place keeping the original
position when the key exists, else append at the end. -/
def dUpsert {α : Type} (m : List (Str × α)) (k : Str) (v : α) : List (Str × α) :=
  match m with
  | [] => [(k, v)]
  | (k2, v2) :: rest =>
    if k2 = k then (k2, v) :: rest else (k2, v2) :: dUpsert rest k v

/-- Follows the file reader: the only error it can raise on a line is the
IndexError from `value[0]` when an assignment has an empty right-hand side. -/
inductive ReadErr where
  | indexError
deriving DecidableEq, Repr

/-- Split a token at its LAST equals sign: `splitLastEq tok = some (n, v)`
when `tok = n ++ [=] ++ v` and `v` has no equals sign.  This mirrors how
the greedy `\S+` group of the assignment regular expression backtracks to
the rightmost `=` inside the first whitespace-free token. -/
def splitLastEq (tok : Str) : Option (Str × Str) :=
  match tok with
  | [] => none
  | c :: cs =>
    match splitLastEq cs with
    | some (n, v) => some (c :: n, v)
    | none => if c = '=' then some ([], cs) else none

/-- The assignment pattern `^(\S+)\s*=\s*(.*)\s*$` applied to a stripped
line, returning the name group and the value group after `.strip()` as done
by the reader.  The greedy first group takes the whole first token when an
`=` follows it (possibly after whitespace); otherwise it backtracks to the
last `=` inside the token, which must leave a nonempty name. -/
def assignMatch (l : Str) : Option (Str × Str) :=
  let tok := l.takeWhile (fun c => !c.isWhitespace)
  let rest := l.drop tok.length
  if tok.isEmpty then none
  else
    match rest.dropWhile Char.isWhitespace with
    | '=' :: tail => some (tok, pyStrip tail)
    | _ =>
      match splitLastEq tok with
      | some (n, v) => if n.isEmpty then none else some (n, pyStrip (v ++ rest))
      | none => none

/-- Quote stripping: `value[1:-1]` when the first and last character are the
same double or single quote (a length-one quote strips to the empty string,
exactly as in the source). -/
def stripQuotes (v : Str) : Str :=
  if (v.head? = some '"' ∧ v.getLast? = some '"')
      ∨ (v.head? = some '\'' ∧ v.getLast? = some '\'') then
    (v.drop 1).dropLast
  else v

/-- Record an assignment in the current scope: a repeated name turns its
value into a list (wrapping the previous value first) and appends. -/
def setAssign (m : SubCfg) (name : Str) (v : Str) : SubCfg :=
  match dLookup m name with
  | none => dUpsert m name (.s v)
  | some (.l xs) => dUpsert m name (.l (xs ++ [.s v]))
  | some (.b x) => dUpsert m name (.l [.b x, .s v])
  | some (.s x) => dUpsert m name (.l [.s x, .s v])

/-- Is a stripped line a profile header `[name]`: first character `[` and
last character `]`. -/
def isHeaderStr (l : Str) : Bool :=
  match l with
  | '[' :: rest => rest.getLast? = some ']'
  | _ => false

/-- The profile name of a header line: `line[1:-1]`. -/
def headerName (l : Str) : Str :=
  (l.drop 1).dropLast

/-- Effect of one stripped non-header line on the current scope, in the
order of the source: blank and comment lines are skipped, a whitespace-free
line is a boolean flag, an assignment line records its (quote-stripped)
value, raising an IndexError when the value is empty, and a line matching
no pattern is silently ignored. -/
def scopeStep (l : Str) (m : SubCfg) : Except ReadErr SubCfg :=
  if l.isEmpty then .ok m
  else if l.head? = some '#' then .ok m
  else if l.all (fun c => !c.isWhitespace) then .ok (dUpsert m l (.b true))
  else
    match assignMatch l with
    | some (name, v) =>
      if v.isEmpty then .error .indexError
      else .ok (setAssign m name (stripQuotes v))
    | none => .ok m

/-- Reader state: the committed top-level mapping, the name of the profile
currently written to (none before the first header, when the top level
itself is the current scope), and the contents of the current scope. -/
structure RState where
  top : Cfg
  scope : Option Str
  cur : SubCfg
deriving DecidableEq, Repr

/-- Commit the current scope into the top-level mapping: before any header
the current scope IS the top level; under a header `[p]` the scope dict is
stored at `p` (dictionary assignment, keeping an existing position). -/
def commitState (st : RState) : Cfg :=
  match st.scope with
  | none => st.top ++ st.cur.map (fun kv => (kv.1, Val.sval kv.2))
  | some p => dUpsert st.top p (.sub st.cur)

/-- Process one raw line: strip it, then either open a new profile (a fresh
empty dict bound to the name, replacing any previous binding) or apply the
line to the current scope. -/
def applyLine (st : RState) (line : Str) : Except ReadErr RState :=
  let l := pyStrip line
  if isHeaderStr l then
    .ok { top := commitState st, scope := some (headerName l), cur := [] }
  else
    match scopeStep l st.cur with
    | .ok m => .ok { st with cur := m }
    | .error e => .error e

/-- Run the reader over a list of raw lines from the initial state. -/
def runLines (lines : List Str) (st : RState) : Except ReadErr RState :=
  match lines with
  | [] => .ok st
  | line :: rest =>
    match applyLine st line with
    | .ok st2 => runLines rest st2
    | .error e => .error e

/-- `read`, modulo the file open: parse the lines of the file into the
nested dictionary `cfg`. -/
def readLines (lines : List Str) : Except ReadErr Cfg :=
  match runLines lines { top := [], scope := none, cur := [] } with
  | .ok st => .ok (commitState st)
  | .error e => .error e

deriving instance DecidableEq for Except

/-- The runtime type of a leaf value, as compared by `type(x) != type(y)`. -/
inductive VType where
  | bool
  | str
  | list
deriving DecidableEq, Repr

/-- `type(v)` for leaf values. -/
def typeOf (v : SVal) : VType :=
  match v with
  | .b _ => .bool
  | .s _ => .str
  | .l _ => .list

/-- The arguments of a raised `ConfigError(name, value=..., msg=...)`.
The class only formats them into a message; the fields are what the call
sites supply. -/
structure ConfigError where
  name : Str
  value : Option Str
  msg : Option Str
deriving DecidableEq, Repr

/-- Python `repr` of a list item as used in the multiple-values error
message: strings are shown in single quotes, booleans as True/False.
(The alternate-quote selection Python applies to strings that contain a
single quote is not reproduced; no statement below depends on it.) -/
def reprAtom (a : Atom) : Str :=
  match a with
  | .s x => '\'' :: x ++ ['\'']
  | .b true => "True".data
  | .b false => "False".data

/-- `", ".join(repr(item) for item in xs)`. -/
def reprJoin (xs : List Atom) : Str :=
  (List.intersperse ", ".data (xs.map reprAtom)).flatten

/-- `str(v)` of a leaf value as passed to `ConfigError(name, value)`. -/
def displaySVal (v : SVal) : Str :=
  match v with
  | .b true => "True".data
  | .b false => "False".data
  | .s x => x
  | .l xs => reprJoin xs

/-- Wrap a single assignment of a list option: `[value_cfgfile]`.
(The list case cannot occur at its call site, where the value type differs
from the list type of the default; it is mapped to itself.) -/
def wrapList (v : SVal) : SVal :=
  match v with
  | .b x => .l [.b x]
  | .s x => .l [.s x]
  | .l xs => .l xs

/-- The per-name body of the validation loop for a non-profile value:
unknown names are rejected, equal types pass through, a scalar for a list
default is wrapped, a list for a scalar default is rejected as multiple
values, an assignment to a boolean default is rejected, and any other
mismatch is a generic invalid value. -/
def checkValue (name : Str) (v : SVal) (defaults : SubCfg) : Except ConfigError SVal :=
  match dLookup defaults name with
  | none => .error ⟨name, none, none⟩
  | some dv =>
    if typeOf v = typeOf dv then .ok v
    else if typeOf dv = .list then .ok (wrapList v)
    else if typeOf v = .list then
      .error ⟨name, some (reprJoin (match v with | .l xs => xs | _ => [])),
              some "Multiple values not allowed".data⟩
    else if typeOf dv = .bool then
      .error ⟨name, some (displaySVal v), some "Assignment to option".data⟩
    else .error ⟨name, some (displaySVal v), none⟩

/-- The validation loop over a flat scope (the recursive `validate` call on
a profile dictionary, whose values are always leaves in files produced by
the reader), accumulating into the result dictionary. -/
def validateScopeAux (entries : SubCfg) (defaults : SubCfg) (acc : SubCfg) :
    Except ConfigError SubCfg :=
  match entries with
  | [] => .ok acc
  | (name, v) :: rest =>
    match checkValue name v defaults with
    | .ok v2 => validateScopeAux rest defaults (dUpsert acc name v2)
    | .error e => .error e

/-- `validate` on a profile sub-dictionary. -/
def validateScope (entries : SubCfg) (defaults : SubCfg) : Except ConfigError SubCfg :=
  validateScopeAux entries defaults []

/-- The validation loop over the top-level mapping: dictionary values are
profiles and are validated recursively against the same defaults; leaf
values go through the per-name checks. -/
def validateAux (entries : Cfg) (defaults : SubCfg) (acc : Cfg) :
    Except ConfigError Cfg :=
  match entries with
  | [] => .ok acc
  | (name, .sub m) :: rest =>
    match validateScope m defaults with
    | .ok m2 => validateAux rest defaults (dUpsert acc name (.sub m2))
    | .error e => .error e
  | (name, .sval v) :: rest =>
    match checkValue name v defaults with
    | .ok v2 => validateAux rest defaults (dUpsert acc name (.sval v2))
    | .error e => .error e

/-- `validate(cfgfile, defaults)`: validated values from the parsed file. -/
def validate (cfgfile : Cfg) (defaults : SubCfg) : Except ConfigError Cfg :=
  validateAux cfgfile defaults []

/-- Errors out of `combine`: the deliberate `ConfigError`, plus the two
unhandled exceptions its code can hit — `profile.items()` on a value that
is not a dictionary (AttributeError) and `defaults[name]` for a name
missing from the defaults (KeyError). -/
inductive CombineErr where
  | config (e : ConfigError)
  | attrError
  | keyError
deriving DecidableEq, Repr

/-- The key under which the CLI mapping stores selected profile names. -/
def profileKey : Str := "profile".data

/-- The `cli.get` of the profile key with default `()`, read as a sequence of profile names.
(The CLI interface supplies this entry as a list of names; a non-list value
here would make the source iterate over something else entirely, which the
combination theorems exclude by hypothesis.) -/
def profileNames (cli : SubCfg) : List Str :=
  match dLookup cli profileKey with
  | some (.l xs) => xs.filterMap (fun a => match a with | .s x => some x | .b _ => none)
  | _ => []

/-- The first loop of `combine`: for every name in the defaults take the
CLI value, else the top-level file value, else the default. -/
def baseCombine (defaults : SubCfg) (cli : SubCfg) (cfgfile : Cfg) : Cfg :=
  match defaults with
  | [] => []
  | (name, dv) :: rest =>
    let v : Val :=
      match dLookup cli name with
      | some cv => .sval cv
      | none =>
        match dLookup cfgfile name with
        | some fv => fv
        | none => .sval dv
    (name, v) :: baseCombine rest cli cfgfile

/-- The inner loop of the profile pass: each profile entry overwrites the
result unless the name is in the CLI mapping with a value different from
its default (looking up `defaults[name]` raises KeyError if absent). -/
def applyProfileEntries (entries : SubCfg) (cli : SubCfg) (defaults : SubCfg)
    (r : Cfg) : Except CombineErr Cfg :=
  match entries with
  | [] => .ok r
  | (name, v) :: rest =>
    match dLookup cli name with
    | none => applyProfileEntries rest cli defaults (dUpsert r name (.sval v))
    | some cv =>
      match dLookup defaults name with
      | none => .error .keyError
      | some dv =>
        if cv = dv then applyProfileEntries rest cli defaults (dUpsert r name (.sval v))
        else applyProfileEntries rest cli defaults r

/-- The outer loop of the profile pass: look each selected name up in the
file mapping — a missing name raises `ConfigError(name, msg=...)`, a
present non-dictionary value makes `profile.items()` raise AttributeError. -/
def applyProfiles (ps : List Str) (cli : SubCfg) (cfgfile : Cfg)
    (defaults : SubCfg) (r : Cfg) : Except CombineErr Cfg :=
  match ps with
  | [] => .ok r
  | p :: rest =>
    match dLookup cfgfile p with
    | none => .error (.config ⟨p, none, some "No such profile".data⟩)
    | some (.sval _) => .error .attrError
    | some (.sub m) =>
      match applyProfileEntries m cli defaults r with
      | .ok r2 => applyProfiles rest cli cfgfile defaults r2
      | .error e => .error e

/-- `combine(cli, cfgfile, defaults)`: baseline precedence CLI over file
over default, then the selected profiles applied in order. -/
def combine (cli : SubCfg) (cfgfile : Cfg) (defaults : SubCfg) :
    Except CombineErr Cfg :=
  applyProfiles (profileNames cli) cli cfgfile defaults (baseCombine defaults cli cfgfile)

/-- Is a top-level value a profile sub-mapping. -/
def isSub (v : Val) : Bool :=
  match v with
  | .sub _ => true
  | .sval _ => false

/-- Does a resolved entry have the shape of the schema default: it must be
a leaf value of the same runtime type. -/
def valMatchesShape (v : Option Val) (dv : Option SVal) : Bool :=
  match v, dv with
  | some (.sval sv), some d0 => typeOf sv == typeOf d0
  | _, _ => false

/-- A sensible option name for a config line: nonempty, free of whitespace,
and not starting a comment or a profile header. -/
abbrev goodKey (k : Str) : Prop :=
  k ≠ [] ∧ (∀ c ∈ k, c.isWhitespace = false) ∧ k.head? ≠ some '#' ∧ k.head? ≠ some '['

/-- A value text that survives stripping unchanged: nonempty with
non-whitespace first and last characters. -/
abbrev goodVal (v : Str) : Prop :=
  v ≠ [] ∧ v.head?.all (fun c => !c.isWhitespace) = true
    ∧ v.getLast?.all (fun c => !c.isWhitespace) = true

/-- `n` spaces. -/
def spaces (n : Nat) : Str := List.replicate n ' '

/-- The effect of a list of non-header lines on the current scope dict. -/
def runScopeList (b : List Str) (c : SubCfg) : Except ReadErr SubCfg :=
  match b with
  | [] => .ok c
  | line :: rest =>
    match scopeStep (pyStrip line) c with
    | .ok c2 => runScopeList rest c2
    | .error e => .error e

/-- A leaf value fits the schema at a name: the name is a schema key and
the runtime types agree. -/
def svalOkFor (d : SubCfg) (k : Str) (v : SVal) : Prop :=
  ∃ dv, dLookup d k = some dv ∧ typeOf v = typeOf dv

/-- Every entry of a flat scope fits the schema (the shape a validated
profile has). -/
def scopeWF (m : SubCfg) (d : SubCfg) : Prop :=
  ∀ kv ∈ m, svalOkFor d kv.1 kv.2

/-- The shape of a validated mapping: leaf entries fit the schema and
profile entries are validated scopes. -/
def cfgWF (c : Cfg) (d : SubCfg) : Prop :=
  ∀ kv ∈ c, (∀ v, kv.2 = Val.sval v → svalOkFor d kv.1 v)
    ∧ (∀ m, kv.2 = Val.sub m → scopeWF m d)

/-- CLI values share the schema shape for every name the schema knows
(the CLI interface hands over already-shaped values). -/
def cliShapeWF (cli : SubCfg) (d : SubCfg) : Prop :=
  ∀ kv ∈ cli, ∀ dv, dLookup d kv.1 = some dv → typeOf kv.2 = typeOf dv

/-- The profile entry of the CLI mapping, when present, is a list of
profile names (strings), as the CLI interface produces. -/
def cliProfileWFb (cli : SubCfg) : Bool :=
  match dLookup cli profileKey with
  | none => true
  | some (.l xs) => xs.all (fun a => match a with | .s _ => true | .b _ => false)
  | some _ => false

/-- Every selected profile name that is present at the top level of the
file mapping is bound to a sub-mapping (so `profile.items()` is defined). -/
def selectedAreSubs (cli : SubCfg) (cfgfile : Cfg) : Bool :=
  (profileNames cli).all (fun p =>
    match dLookup cfgfile p with
    | some (.sval _) => false
    | _ => true)

/-- No profile in the file shares its name with a schema key. -/
abbrev noProfileKeyCollision (cfgfile : Cfg) (d : SubCfg) : Prop :=
  ∀ kv ∈ cfgfile, isSub kv.2 = true → dLookup d kv.1 = none

example : "ab".data = ['a', 'b'] := by decide

example : pyStrip "  ab ".data = ['a', 'b'] := by decide

example : dLookup [( ['a'], (3 : Nat) )] ['a'] = some 3 := by decide

example : readLines ["key = value".data] = .ok [("key".data, .sval (.s "value".data))] := by decide

example : readLines ["key=value".data] = .ok [("key=value".data, .sval (.b true))] := by decide

example : readLines ["flag".data, "# c".data, "".data, "[p]".data, "a = 1".data, "a = 2".data]
    = .ok [("flag".data, .sval (.b true)),
           ("p".data, .sub [("a".data, .l [.s "1".data, .s "2".data])])] := by decide

example : readLines ["key =".data] = .error .indexError := by decide

example : readLines ["n = \"hello world\"".data] = .ok [("n".data, .sval (.s "hello world".data))] := by decide

example : readLines ["n = \"unterminated".data] = .ok [("n".data, .sval (.s "\"unterminated".data))] := by decide

example : readLines ["a=b = c".data] = .ok [("a=b".data, .sval (.s "c".data))] := by decide

-- sanity check: CLI verbose=false (equal to default) loses to profile P
example : combine [("verbose".data, .b false), (profileKey, .l [.s "P".data])]
    [("P".data, .sub [("verbose".data, .b true)])]
    [("verbose".data, .b false)]
    = .ok [("verbose".data, .sval (.b true))] := by decide

-- sanity check: selected name bound to a string raises AttributeError
example : combine [(profileKey, .l [.s "x".data])]
    [("x".data, .sval (.s "hello".data))]
    [("x".data, .s "d".data)]
    = .error .attrError := by decide

-- sanity check: a profile named like a schema key lands in the result as a dict
example : combine [] [("x".data, .sub [("y".data, .s "v".data)])]
    [("x".data, .s "d".data), ("y".data, .s "e".data)]
    = .ok [("x".data, .sub [("y".data, .s "v".data)]), ("y".data, .sval (.s "e".data))] := by decide

example : validate [("x".data, .sub [("y".data, .s "v".data)])]
    [("x".data, .s "d".data), ("y".data, .s "e".data)]
    = .ok [("x".data, .sub [("y".data, .s "v".data)])] := by decide

-- sanity checks: scalar and list coercion in validate
example : validate [("a".data, .sval (.l [.s "1".data, .s "2".data]))] [("a".data, .s "d".data)]
    = .error ⟨"a".data, some "'1', '2'".data, some "Multiple values not allowed".data⟩ := by decide

example : validate [("a".data, .sval (.s "1".data))] [("a".data, .l [])]
    = .ok [("a".data, .sval (.l [.s "1".data]))] := by decide

/-! ## Dictionary lemmas -/

theorem dLookup_dUpsert {α : Type} (m : List (Str × α)) (k k2 : Str) (v : α) :
    dLookup (dUpsert m k v) k2 = if k = k2 then some v else dLookup m k2 := by
  induction m with
  | nil =>
    by_cases h : k = k2 <;> simp [dUpsert, dLookup, h]
  | cons kv rest ih =>
    obtain ⟨k3, v3⟩ := kv
    by_cases h3 : k3 = k
    · subst h3
      by_cases h2 : k3 = k2 <;> simp [dUpsert, dLookup, h2]
    · by_cases h2 : k3 = k2
      · subst h2
        have : ¬ k = k3 := fun h => h3 h.symm
        simp [dUpsert, dLookup, h3, this]
      · simp [dUpsert, dLookup, h3, h2, ih]

theorem dLookup_mem {α : Type} (m : List (Str × α)) (k : Str) (v : α)
    (h : dLookup m k = some v) : (k, v) ∈ m := by
  induction m with
  | nil => simp [dLookup] at h
  | cons kv rest ih =>
    obtain ⟨k2, v2⟩ := kv
    by_cases h2 : k2 = k
    · subst h2
      simp [dLookup] at h
      simp [h]
    · simp [dLookup, h2] at h
      exact List.mem_cons_of_mem _ (ih h)

/-! ## Stripping lemmas -/

theorem dropWhile_eq_self_of_head (p : Char → Bool) (l : Str)
    (h : ∀ c, l.head? = some c → p c = false) : l.dropWhile p = l := by
  cases l with
  | nil => simp
  | cons c cs =>
    have hc := h c rfl
    simp [List.dropWhile_cons, hc]

theorem pyStrip_eq_self (l : Str)
    (h1 : ∀ c, l.head? = some c → c.isWhitespace = false)
    (h2 : ∀ c, l.getLast? = some c → c.isWhitespace = false) : pyStrip l = l := by
  unfold pyStrip
  rw [dropWhile_eq_self_of_head _ _ h1]
  rw [dropWhile_eq_self_of_head _ _ (by intro c hc; exact h2 c (by simpa using hc))]
  simp

theorem pyStrip_ws_append (w v : Str) (hw : ∀ c ∈ w, c.isWhitespace = true) :
    pyStrip (w ++ v) = pyStrip v := by
  unfold pyStrip
  rw [List.dropWhile_append_of_pos (by intro a ha; exact hw a ha)]

theorem pyStrip_spaces_append (n : Nat) (v : Str)
    (h1 : ∀ c, v.head? = some c → c.isWhitespace = false)
    (h2 : ∀ c, v.getLast? = some c → c.isWhitespace = false) :
    pyStrip (spaces n ++ v) = v := by
  rw [pyStrip_ws_append _ _ (by intro c hc; simp [spaces] at hc; simp [hc])]
  exact pyStrip_eq_self v h1 h2

/-! ## Assignment pattern lemmas -/

theorem splitLastEq_none (l : Str) (h : '=' ∉ l) : splitLastEq l = none := by
  induction l with
  | nil => rfl
  | cons c cs ih =>
    have hc : ¬ c = '=' := fun hc => h (by simp [hc])
    have hcs : '=' ∉ cs := fun hm => h (List.mem_cons_of_mem _ hm)
    simp [splitLastEq, ih hcs, hc]

theorem splitLastEq_append (l1 l2 : Str) (h : '=' ∉ l2) :
    splitLastEq (l1 ++ '=' :: l2) = some (l1, l2) := by
  induction l1 with
  | nil => simp [splitLastEq, splitLastEq_none l2 h]
  | cons c cs ih => simp [splitLastEq, ih]

theorem takeWhile_nonws_of_key (key : Str) (rest : Str)
    (hknw : ∀ c ∈ key, c.isWhitespace = false)
    (hrest : ∀ c, rest.head? = some c → c.isWhitespace = true) :
    (key ++ rest).takeWhile (fun c => !c.isWhitespace) = key := by
  rw [List.takeWhile_append_of_pos (by intro a ha; simp [hknw a ha])]
  cases rest with
  | nil => simp
  | cons c cs =>
    have := hrest c rfl
    simp [List.takeWhile_cons, this]

theorem assignMatch_sep (key w tail : Str)
    (hk : key ≠ []) (hknw : ∀ c ∈ key, c.isWhitespace = false)
    (hw : w ≠ []) (hww : ∀ c ∈ w, c.isWhitespace = true) :
    assignMatch (key ++ w ++ '=' :: tail) = some (key, pyStrip tail) := by
  have htok : (key ++ (w ++ '=' :: tail)).takeWhile (fun c => !c.isWhitespace) = key := by
    apply takeWhile_nonws_of_key _ _ hknw
    intro c hc
    cases w with
    | nil => exact absurd rfl hw
    | cons c0 cs =>
      simp at hc
      subst hc
      exact hww c0 (by simp)
  have hdrop : (key ++ (w ++ '=' :: tail)).drop key.length = w ++ '=' :: tail :=
    List.drop_left key (w ++ '=' :: tail)
  have hdw : (w ++ '=' :: tail).dropWhile Char.isWhitespace = '=' :: tail := by
    rw [List.dropWhile_append_of_pos (by intro a ha; exact hww a ha)]
    simp [List.dropWhile_cons]
  rw [List.append_assoc]
  unfold assignMatch
  simp only [htok, hdrop, hdw]
  simp [hk]

theorem assignMatch_nosep (key w v : Str)
    (hk : key ≠ []) (hknw : ∀ c ∈ key, c.isWhitespace = false)
    (hw : w ≠ []) (hww : ∀ c ∈ w, c.isWhitespace = true)
    (hv : v ≠ []) (hvh : ∀ c, v.head? = some c → c.isWhitespace = false ∧ c ≠ '=') :
    assignMatch (key ++ '=' :: (w ++ v)) = some (key, pyStrip (w ++ v)) := by
  have hkey1 : ∀ c ∈ key ++ ['='], c.isWhitespace = false := by
    intro c hc
    rcases List.mem_append.mp hc with h | h
    · exact hknw c h
    · simp at h; subst h; decide
  have htok : (key ++ '=' :: (w ++ v)).takeWhile (fun c => !c.isWhitespace)
      = key ++ ['='] := by
    have : key ++ '=' :: (w ++ v) = (key ++ ['=']) ++ (w ++ v) := by simp
    rw [this]
    apply takeWhile_nonws_of_key _ _ hkey1
    intro c hc
    cases w with
    | nil => exact absurd rfl hw
    | cons c0 cs =>
      simp at hc
      subst hc
      exact hww c0 (by simp)
  have hdrop : (key ++ '=' :: (w ++ v)).drop (key ++ ['=']).length = w ++ v := by
    have : key ++ '=' :: (w ++ v) = (key ++ ['=']) ++ (w ++ v) := by simp
    rw [this]
    exact List.drop_left _ _
  have hdw : (w ++ v).dropWhile Char.isWhitespace = v := by
    rw [List.dropWhile_append_of_pos (by intro a ha; exact hww a ha)]
    apply dropWhile_eq_self_of_head
    intro c hc
    exact (hvh c hc).1
  have hsplit : splitLastEq (key ++ ['=']) = some (key, []) := by
    have : (key ++ ['=']) = key ++ '=' :: [] := by simp
    rw [this]
    exact splitLastEq_append key [] (by simp)
  unfold assignMatch
  simp only [htok, hdrop, hdw]
  cases v with
  | nil => exact absurd rfl hv
  | cons c0 cs =>
    have hne : c0 ≠ '=' := (hvh c0 rfl).2
    have hkie : (key ++ ['=']).isEmpty = false := by simp
    simp [hkie, hsplit, hne, hk]

/-! ## Reader line lemmas -/

theorem head?_append_left (l1 l2 : Str) (h : l1 ≠ []) : (l1 ++ l2).head? = l1.head? := by
  cases l1 with
  | nil => exact absurd rfl h
  | cons c cs => simp

theorem getLast?_append_right (l1 l2 : Str) (h : l2 ≠ []) :
    (l1 ++ l2).getLast? = l2.getLast? := by
  rw [List.getLast?_eq_head?_reverse, List.reverse_append, List.head?_append,
    List.getLast?_eq_head?_reverse]
  rw [show l2.reverse.head? = l2.getLast? from List.head?_reverse l2,
    List.getLast?_eq_getLast l2 h]
  simp

theorem isHeaderStr_eq_false_of_head (l : Str) (h : l.head? ≠ some '[') :
    isHeaderStr l = false := by
  cases l with
  | nil => rfl
  | cons c cs =>
    have hc : c ≠ '[' := by intro hc; exact h (by simp [hc])
    unfold isHeaderStr
    simp [hc]

theorem all_nonws_false_of_mem (l : Str) (c : Char) (hc : c ∈ l)
    (hw : c.isWhitespace = true) : l.all (fun c => !c.isWhitespace) = false := by
  cases hall : l.all (fun c => !c.isWhitespace) with
  | false => rfl
  | true =>
    have := List.all_eq_true.mp hall c hc
    simp [hw] at this

theorem mem_of_head?_some (l : Str) (c : Char) (h : l.head? = some c) : c ∈ l := by
  cases l with
  | nil => simp at h
  | cons c0 cs => simp at h; simp [h]

theorem readLines_single_assign (line name v : Str)
    (hstrip : pyStrip line = line)
    (hhdr : isHeaderStr line = false)
    (hne : line ≠ [])
    (hcm : line.head? ≠ some '#')
    (hws : line.all (fun c => !c.isWhitespace) = false)
    (ham : assignMatch line = some (name, v))
    (hv : v ≠ []) :
    readLines [line] = .ok [(name, .sval (.s (stripQuotes v)))] := by
  have hie : line.isEmpty = false := by rw [List.isEmpty_eq_false]; exact hne
  have hvie : v.isEmpty = false := by rw [List.isEmpty_eq_false]; exact hv
  simp [readLines, runLines, applyLine, scopeStep, hstrip, hhdr, hie, hcm, hws, ham,
    hvie, setAssign, dLookup, dUpsert, commitState]

theorem readLines_single_assign_empty (line name : Str)
    (hstrip : pyStrip line = line)
    (hhdr : isHeaderStr line = false)
    (hne : line ≠ [])
    (hcm : line.head? ≠ some '#')
    (hws : line.all (fun c => !c.isWhitespace) = false)
    (ham : assignMatch line = some (name, [])) :
    readLines [line] = .error .indexError := by
  have hie : line.isEmpty = false := by rw [List.isEmpty_eq_false]; exact hne
  simp [readLines, runLines, applyLine, scopeStep, hstrip, hhdr, hie, hcm, hws, ham]

theorem head?_all_nonws (v : Str) (h : v.head?.all (fun c => !c.isWhitespace) = true) :
    ∀ c, v.head? = some c → c.isWhitespace = false := by
  intro c hc
  rw [hc] at h
  simpa using h

theorem getLast?_all_nonws (v : Str) (h : v.getLast?.all (fun c => !c.isWhitespace) = true) :
    ∀ c, v.getLast? = some c → c.isWhitespace = false := by
  intro c hc
  rw [hc] at h
  simpa using h

theorem spaces_all_ws (n : Nat) : ∀ c ∈ spaces n, c.isWhitespace = true := by
  intro c hc
  simp only [spaces] at hc
  rw [List.eq_of_mem_replicate hc]
  decide

theorem spaces_ne_nil (n : Nat) (h : 1 ≤ n) : spaces n ≠ [] := by
  intro he
  have hl : (spaces n).length = 0 := by rw [he]; rfl
  simp [spaces] at hl
  omega

/-- C8: a line consisting of a key, whitespace, and a bare `=` with nothing
after it (an assignment whose right-hand side is empty after trimming) makes
the reader hit the unhandled IndexError from indexing the empty value; it
neither records the key, skips the line, nor raises a ConfigError. -/
theorem claim_C8 (key : Str) (n : Nat) (hk : goodKey key) (hn : 1 ≤ n) :
    readLines [key ++ spaces n ++ '=' :: []] = .error .indexError := by
  obtain ⟨hk1, hk2, hk3, hk4⟩ := hk
  have hkh : ∀ c, key.head? = some c → c.isWhitespace = false := by
    intro c hc
    exact hk2 c (mem_of_head?_some key c hc)
  have hlineh : (key ++ spaces n ++ '=' :: []).head? = key.head? := by
    rw [List.append_assoc]
    exact head?_append_left key _ hk1
  have hgl : (key ++ spaces n ++ '=' :: []).getLast? = some '=' := by
    rw [show key ++ spaces n ++ '=' :: [] = (key ++ spaces n) ++ ['='] from rfl]
    exact List.getLast?_concat _
  have hstrip : pyStrip (key ++ spaces n ++ '=' :: []) = key ++ spaces n ++ '=' :: [] := by
    apply pyStrip_eq_self
    · intro c hc
      rw [hlineh] at hc
      exact hkh c hc
    · intro c hc
      rw [hgl] at hc
      cases hc
      decide
  have hhdr : isHeaderStr (key ++ spaces n ++ '=' :: []) = false := by
    apply isHeaderStr_eq_false_of_head
    rw [hlineh]
    exact hk4
  have hne : key ++ spaces n ++ '=' :: [] ≠ [] := by simp
  have hcm : (key ++ spaces n ++ '=' :: []).head? ≠ some '#' := by
    rw [hlineh]
    exact hk3
  have hmem : ' ' ∈ key ++ spaces n ++ '=' :: [] := by
    have hsp : ' ' ∈ spaces n := by
      simp only [spaces, List.mem_replicate]
      exact ⟨by omega, trivial⟩
    simp only [List.mem_append]
    exact Or.inl (Or.inr hsp)
  have hws : (key ++ spaces n ++ '=' :: []).all (fun c => !c.isWhitespace) = false :=
    all_nonws_false_of_mem _ ' ' hmem (by decide)
  have ham : assignMatch (key ++ spaces n ++ '=' :: []) = some (key, []) := by
    have := assignMatch_sep key (spaces n) [] hk1 hk2 (spaces_ne_nil n hn) (spaces_all_ws n)
    rw [this]
    rfl
  exact readLines_single_assign_empty _ key hstrip hhdr hne hcm hws ham

theorem claim_C8_witness :
    goodKey "key".data ∧ readLines ["key".data ++ spaces 1 ++ '=' :: []] = .error .indexError :=
  ⟨by decide, claim_C8 "key".data 1 (by decide) (by decide)⟩

/-- C4 counterexample: the line `key=value`, with no whitespace at all,
matches the bare-flag pattern (checked first) and is recorded as the boolean
flag named `key=value`; nothing is recorded under `key`. -/
theorem claim_C4_counterexample :
    readLines ["key=value".data] = .ok [("key=value".data, Val.sval (SVal.b true))]
      ∧ dLookup ([("key=value".data, Val.sval (SVal.b true))] : Cfg) "key".data = none := by
  decide

/-- The classifier facts for a well-formed assignment line with at least
one whitespace character around the equals sign. -/
theorem assign_line_facts (key v : Str) (n1 n2 : Nat)
    (hk : goodKey key) (hv : goodVal v)
    (hveq : v.head? ≠ some '=')
    (hn : 1 ≤ n1 + n2) :
    pyStrip (key ++ spaces n1 ++ '=' :: (spaces n2 ++ v))
        = key ++ spaces n1 ++ '=' :: (spaces n2 ++ v)
      ∧ isHeaderStr (key ++ spaces n1 ++ '=' :: (spaces n2 ++ v)) = false
      ∧ key ++ spaces n1 ++ '=' :: (spaces n2 ++ v) ≠ []
      ∧ (key ++ spaces n1 ++ '=' :: (spaces n2 ++ v)).head? ≠ some '#'
      ∧ (key ++ spaces n1 ++ '=' :: (spaces n2 ++ v)).all (fun c => !c.isWhitespace) = false
      ∧ assignMatch (key ++ spaces n1 ++ '=' :: (spaces n2 ++ v)) = some (key, v) := by
  obtain ⟨hk1, hk2, hk3, hk4⟩ := hk
  obtain ⟨hv1, hv2b, hv3b⟩ := hv
  have hv2 := head?_all_nonws v hv2b
  have hv3 := getLast?_all_nonws v hv3b
  have hkh : ∀ c, key.head? = some c → c.isWhitespace = false := by
    intro c hc
    exact hk2 c (mem_of_head?_some key c hc)
  have hvalue : pyStrip (spaces n2 ++ v) = v := pyStrip_spaces_append n2 v hv2 hv3
  have hlineh : (key ++ spaces n1 ++ '=' :: (spaces n2 ++ v)).head? = key.head? := by
    rw [List.append_assoc]
    exact head?_append_left key _ hk1
  have hgl : (key ++ spaces n1 ++ '=' :: (spaces n2 ++ v)).getLast? = v.getLast? := by
    rw [show key ++ spaces n1 ++ '=' :: (spaces n2 ++ v)
        = ((key ++ spaces n1) ++ ('=' :: spaces n2)) ++ v by simp]
    exact getLast?_append_right _ v hv1
  refine ⟨?_, ?_, ?_, ?_, ?_, ?_⟩
  · apply pyStrip_eq_self
    · intro c hc
      rw [hlineh] at hc
      exact hkh c hc
    · intro c hc
      rw [hgl] at hc
      exact hv3 c hc
  · apply isHeaderStr_eq_false_of_head
    rw [hlineh]
    exact hk4
  · simp
  · rw [hlineh]
    exact hk3
  · apply all_nonws_false_of_mem _ ' ' ?_ (by decide)
    simp only [List.mem_append, List.mem_cons]
    rcases Nat.lt_or_ge n1 1 with h1 | h1
    · have hsp : ' ' ∈ spaces n2 := by
        simp only [spaces, List.mem_replicate]
        exact ⟨by omega, trivial⟩
      exact Or.inr (Or.inr (Or.inl hsp))
    · have hsp : ' ' ∈ spaces n1 := by
        simp only [spaces, List.mem_replicate]
        exact ⟨by omega, trivial⟩
      exact Or.inl (Or.inr hsp)
  · rcases Nat.eq_zero_or_pos n1 with h1 | h1
    · subst h1
      have hn2 : 1 ≤ n2 := by omega
      have hline0 : key ++ spaces 0 ++ '=' :: (spaces n2 ++ v)
          = key ++ '=' :: (spaces n2 ++ v) := by
        simp [spaces]
      rw [hline0]
      have := assignMatch_nosep key (spaces n2) v hk1 hk2 (spaces_ne_nil n2 hn2)
        (spaces_all_ws n2) hv1
        (by
          intro c hc
          refine ⟨hv2 c hc, ?_⟩
          intro he
          subst he
          exact hveq hc)
      rw [this, hvalue]
    · have := assignMatch_sep key (spaces n1) (spaces n2 ++ v) hk1 hk2
        (spaces_ne_nil n1 h1) (spaces_all_ws n1)
      rw [this, hvalue]

/-- Reading a single well-formed assignment line records the quote-stripped
value under the key. -/
theorem readLines_assign_general (key v : Str) (n1 n2 : Nat)
    (hk : goodKey key) (hv : goodVal v)
    (hveq : v.head? ≠ some '=')
    (hn : 1 ≤ n1 + n2) :
    readLines [key ++ spaces n1 ++ '=' :: (spaces n2 ++ v)] =
      .ok [(key, Val.sval (.s (stripQuotes v)))] := by
  obtain ⟨hstrip, hhdr, hne, hcm, hws, ham⟩ := assign_line_facts key v n1 n2 hk hv hveq hn
  exact readLines_single_assign _ key v hstrip hhdr hne hcm hws ham hv.1

/-- C4 (amended): a `key = value` line is classified as a string assignment
of the trimmed value to the key for ANY amount of whitespace around the `=`
as long as there is at least one whitespace character; with no whitespace at
all the bare-flag pattern matches first and the line becomes a boolean flag
named by the entire line. -/
theorem claim_C4 (key v : Str) (n1 n2 : Nat)
    (hk : goodKey key) (hv : goodVal v)
    (hq : stripQuotes v = v) (hveq : v.head? ≠ some '=')
    (hn : 1 ≤ n1 + n2) :
    readLines [key ++ spaces n1 ++ '=' :: (spaces n2 ++ v)] =
      .ok [(key, Val.sval (.s v))] := by
  have hmain := readLines_assign_general key v n1 n2 hk hv hveq hn
  rw [hq] at hmain
  exact hmain

theorem claim_C4_witness :
    goodKey "key".data ∧ goodVal "value".data ∧
      readLines ["key".data ++ spaces 1 ++ '=' :: (spaces 1 ++ "value".data)] =
        .ok [("key".data, Val.sval (.s "value".data))] :=
  ⟨by decide, by decide,
    claim_C4 "key".data "value".data 1 1 (by decide) (by decide) (by decide)
      (by decide) (by decide)⟩

theorem stripQuotes_wrapped (q : Char) (hq : q = '"' ∨ q = '\'') (v : Str) :
    stripQuotes (q :: v ++ [q]) = v := by
  have hgl : (q :: v ++ [q]).getLast? = some q := by
    rw [show q :: v ++ [q] = (q :: v) ++ [q] from rfl]
    exact List.getLast?_concat _
  unfold stripQuotes
  rcases hq with hq | hq <;> subst hq
  · rw [if_pos (Or.inl ⟨rfl, hgl⟩)]
    simp
  · rw [if_pos (Or.inr ⟨rfl, hgl⟩)]
    simp

theorem stripQuotes_unterminated (q : Char) (hq : q = '"' ∨ q = '\'') (v : Str)
    (hv : v ≠ []) (hlast : v.getLast? ≠ some q) :
    stripQuotes (q :: v) = q :: v := by
  have hgl : (q :: v).getLast? = v.getLast? := by
    rw [show q :: v = [q] ++ v from rfl]
    exact getLast?_append_right [q] v hv
  unfold stripQuotes
  rw [if_neg]
  intro h
  rcases h with ⟨h1, h2⟩ | ⟨h1, h2⟩
  · have hq1 : q = '"' := by simpa using h1
    rw [hgl] at h2
    apply hlast
    rw [hq1]
    exact h2
  · have hq1 : q = '\'' := by simpa using h1
    rw [hgl] at h2
    apply hlast
    rw [hq1]
    exact h2

/-- C7: a value wrapped in one matching pair of double or single quotes has
exactly one level of quotes stripped, while a value whose first and last
characters are not a matching quote pair (such as an unterminated quote) is
recorded literally, leading quote character included. -/
theorem claim_C7 (q : Char) (hq : q = '"' ∨ q = '\'') (key : Str) (hk : goodKey key) :
    (∀ v : Str,
      readLines [key ++ spaces 1 ++ '=' :: (spaces 1 ++ (q :: v ++ [q]))]
        = .ok [(key, Val.sval (.s v))])
    ∧ (∀ v : Str, v ≠ [] → v.getLast?.all (fun c => !c.isWhitespace) = true →
        v.getLast? ≠ some q →
        readLines [key ++ spaces 1 ++ '=' :: (spaces 1 ++ (q :: v))]
          = .ok [(key, Val.sval (.s (q :: v)))]) := by
  have hqnw : q.isWhitespace = false := by
    rcases hq with h | h <;> subst h <;> decide
  have hqeq : q ≠ '=' := by
    rcases hq with h | h <;> subst h <;> decide
  constructor
  · intro v
    have hgv : goodVal (q :: v ++ [q]) := by
      refine ⟨by simp, ?_, ?_⟩
      · simp [hqnw]
      · rw [show q :: v ++ [q] = (q :: v) ++ [q] from rfl, List.getLast?_concat]
        simp [hqnw]
    have hveq : (q :: v ++ [q]).head? ≠ some '=' := by
      simp [hqeq]
    have := readLines_assign_general key (q :: v ++ [q]) 1 1 hk hgv hveq (by omega)
    rw [stripQuotes_wrapped q hq v] at this
    exact this
  · intro v hv hvlb hvq
    have hgv : goodVal (q :: v) := by
      refine ⟨by simp, ?_, ?_⟩
      · simp [hqnw]
      · rw [show q :: v = [q] ++ v from rfl, getLast?_append_right [q] v hv]
        exact hvlb
    have hveq : (q :: v).head? ≠ some '=' := by
      simp [hqeq]
    have := readLines_assign_general key (q :: v) 1 1 hk hgv hveq (by omega)
    rw [stripQuotes_unterminated q hq v hv hvq] at this
    exact this

theorem claim_C7_witness :
    ("hello world".data ≠ [] ∧ goodKey "name".data) ∧
      readLines ["name".data ++ spaces 1 ++ '=' :: (spaces 1
          ++ ('"' :: "hello world".data ++ ['"']))]
        = .ok [("name".data, Val.sval (.s "hello world".data))] ∧
      readLines ["name".data ++ spaces 1 ++ '=' :: (spaces 1
          ++ ('"' :: "unterminated".data))]
        = .ok [("name".data, Val.sval (.s ('"' :: "unterminated".data)))] :=
  ⟨⟨by decide, by decide⟩,
    (claim_C7 '"' (Or.inl rfl) "name".data (by decide)).1 "hello world".data,
    (claim_C7 '"' (Or.inl rfl) "name".data (by decide)).2 "unterminated".data
      (by decide) (by decide) (by decide)⟩

/-- C10: a key first seen as a bare flag and later assigned a value in the
same scope ends up bound to the two-element list holding the boolean true
followed by the assigned string. -/
theorem claim_C10 (key v : Str) (hk : goodKey key) (hv : goodVal v)
    (hq : stripQuotes v = v) (hveq : v.head? ≠ some '=') :
    readLines [key, key ++ spaces 1 ++ '=' :: (spaces 1 ++ v)]
      = .ok [(key, Val.sval (.l [.b true, .s v]))] := by
  obtain ⟨hstrip, hhdr, hne, hcm, hws, ham⟩ :=
    assign_line_facts key v 1 1 hk hv hveq (by omega)
  obtain ⟨hk1, hk2, hk3, hk4⟩ := hk
  have hkstrip : pyStrip key = key := by
    apply pyStrip_eq_self
    · intro c hc
      exact hk2 c (mem_of_head?_some key c hc)
    · intro c hc
      exact hk2 c (List.mem_of_getLast?_eq_some hc)
  have hkhdr : isHeaderStr key = false := isHeaderStr_eq_false_of_head key hk4
  have hkie : key.isEmpty = false := by
    rw [List.isEmpty_eq_false]
    exact hk1
  have hkall : key.all (fun c => !c.isWhitespace) = true := by
    rw [List.all_eq_true]
    intro c hc
    simp [hk2 c hc]
  have hie : (key ++ spaces 1 ++ '=' :: (spaces 1 ++ v)).isEmpty = false := by
    rw [List.isEmpty_eq_false]
    exact hne
  have hvie : v.isEmpty = false := by
    rw [List.isEmpty_eq_false]
    exact hv.1
  simp only [List.append_assoc] at hstrip hhdr hie hcm hws ham
  simp [readLines, runLines, applyLine, scopeStep, hkstrip, hkhdr, hkie, hkall, hk3, hk1,
    hstrip, hhdr, hie, hcm, hws, ham, hvie, hq, setAssign, dLookup, dUpsert, commitState]

theorem claim_C10_witness :
    goodKey "flag".data ∧
      readLines ["flag".data, "flag".data ++ spaces 1 ++ '=' :: (spaces 1 ++ "on".data)]
        = .ok [("flag".data, Val.sval (.l [.b true, .s "on".data]))] :=
  ⟨by decide,
    claim_C10 "flag".data "on".data (by decide) (by decide) (by decide) (by decide)⟩

theorem runLines_append (a b : List Str) (st : RState) :
    runLines (a ++ b) st = match runLines a st with
      | .ok st2 => runLines b st2
      | .error e => .error e := by
  induction a generalizing st with
  | nil => simp [runLines]
  | cons line rest ih =>
    simp only [List.cons_append, runLines]
    cases applyLine st line with
    | ok st2 => exact ih st2
    | error e => rfl

theorem runLines_scope (b : List Str) (t : Cfg) (s : Option Str) (c : SubCfg)
    (h : ∀ line ∈ b, isHeaderStr (pyStrip line) = false) :
    runLines b ⟨t, s, c⟩ = match runScopeList b c with
      | .ok c2 => .ok ⟨t, s, c2⟩
      | .error e => .error e := by
  induction b generalizing c with
  | nil => simp [runLines, runScopeList]
  | cons line rest ih =>
    have hhdr : isHeaderStr (pyStrip line) = false := h line (by simp)
    have hrest : ∀ l2 ∈ rest, isHeaderStr (pyStrip l2) = false := by
      intro l2 hl2
      exact h l2 (by simp [hl2])
    simp only [runLines, runScopeList, applyLine, hhdr, Bool.false_eq_true, if_false]
    cases scopeStep (pyStrip line) c with
    | ok c2 => exact ih c2 hrest
    | error e => rfl

theorem header_line_facts (p : Str) :
    pyStrip ('[' :: p ++ [']']) = '[' :: p ++ [']']
      ∧ isHeaderStr ('[' :: p ++ [']']) = true
      ∧ headerName ('[' :: p ++ [']']) = p := by
  refine ⟨?_, ?_, ?_⟩
  · apply pyStrip_eq_self
    · intro c hc
      simp at hc
      subst hc
      decide
    · intro c hc
      rw [show ('[' :: p ++ [']'] : Str) = ('[' :: p) ++ [']'] from rfl,
        List.getLast?_concat] at hc
      cases hc
      decide
  · unfold isHeaderStr
    simp [List.getLast?_concat]
  · unfold headerName
    simp

theorem applyLine_header (st : RState) (p : Str) :
    applyLine st ('[' :: p ++ [']']) = .ok ⟨commitState st, some p, []⟩ := by
  obtain ⟨h1, h2, h3⟩ := header_line_facts p
  simp only [List.cons_append] at h1 h2 h3
  simp [applyLine, h1, h2, h3]

/-- C9: when the same profile header appears twice, the second header rebinds
the name to a fresh empty scope: the file with both blocks parses to exactly
the same mapping as the file with only the second block, so the options of
the first block are silently discarded. -/
theorem claim_C9 (p : Str) (b1 b2 : List Str)
    (h1 : ∀ line ∈ b1, isHeaderStr (pyStrip line) = false)
    (h2 : ∀ line ∈ b2, isHeaderStr (pyStrip line) = false)
    (c1 : SubCfg) (hok : runScopeList b1 [] = .ok c1) :
    readLines (('[' :: p ++ [']']) :: b1 ++ ('[' :: p ++ [']']) :: b2)
      = readLines (('[' :: p ++ [']']) :: b2) := by
  have happly : ∀ st : RState,
      applyLine st ('[' :: p ++ [']']) = .ok ⟨commitState st, some p, []⟩ :=
    fun st => applyLine_header st p
  have hinit : commitState ⟨[], none, []⟩ = [] := by
    simp [commitState]
  have hcommit1 : ∀ c : SubCfg, commitState ⟨[], some p, c⟩ = [(p, Val.sub c)] := by
    intro c
    simp [commitState, dUpsert]
  have hcommit2 : ∀ c c2 : SubCfg,
      commitState ⟨[(p, Val.sub c)], some p, c2⟩ = [(p, Val.sub c2)] := by
    intro c c2
    simp [commitState, dUpsert]
  unfold readLines
  rw [show (('[' :: p ++ [']']) :: b1 ++ ('[' :: p ++ [']']) :: b2 : List Str)
      = (('[' :: p ++ [']']) :: b1) ++ (('[' :: p ++ [']']) :: b2) from rfl]
  rw [runLines_append]
  simp only [runLines, happly, hinit]
  rw [runLines_scope b1 [] (some p) [] h1]
  simp only [hok]
  simp only [runLines, happly, hcommit1]
  rw [runLines_scope b2 [(p, Val.sub c1)] (some p) [] h2]
  rw [runLines_scope b2 [] (some p) [] h2]
  cases hb2 : runScopeList b2 [] with
  | ok c2 => simp [hcommit1, hcommit2]
  | error e => rfl

theorem claim_C9_witness :
    (∀ line ∈ ["a = 1".data], isHeaderStr (pyStrip line) = false) ∧
      runScopeList ["a = 1".data] [] = .ok [("a".data, .s "1".data)] ∧
      readLines [('[' :: "p".data ++ [']']), "a = 1".data,
          ('[' :: "p".data ++ [']']), "b = 2".data]
        = readLines [('[' :: "p".data ++ [']']), "b = 2".data] :=
  ⟨by decide, by decide,
    claim_C9 "p".data ["a = 1".data] ["b = 2".data] (by decide) (by decide)
      [("a".data, .s "1".data)] (by decide)⟩

/-! ## Validator lemmas -/

theorem validateAux_append (xs ys : Cfg) (d : SubCfg) (acc : Cfg) :
    validateAux (xs ++ ys) d acc = match validateAux xs d acc with
      | .ok acc2 => validateAux ys d acc2
      | .error e => .error e := by
  induction xs generalizing acc with
  | nil => simp [validateAux]
  | cons kv rest ih =>
    obtain ⟨name, v⟩ := kv
    cases v with
    | sub m =>
      simp only [List.cons_append, validateAux]
      cases validateScope m d with
      | ok m2 => exact ih _
      | error e => rfl
    | sval sv =>
      simp only [List.cons_append, validateAux]
      cases checkValue name sv d with
      | ok v2 => exact ih _
      | error e => rfl

theorem validateAux_lookup_of_not_mem (entries : Cfg) (d : SubCfg) (acc r : Cfg)
    (k : Str) (hk : ∀ kv ∈ entries, kv.1 ≠ k)
    (h : validateAux entries d acc = .ok r) :
    dLookup r k = dLookup acc k := by
  induction entries generalizing acc with
  | nil =>
    simp [validateAux] at h
    rw [h]
  | cons kv rest ih =>
    obtain ⟨name, v⟩ := kv
    have hne : name ≠ k := hk (name, v) (by simp)
    have hrest : ∀ kv ∈ rest, kv.1 ≠ k := by
      intro kv2 hkv2
      exact hk kv2 (by simp [hkv2])
    cases v with
    | sub m =>
      simp only [validateAux] at h
      cases hm : validateScope m d with
      | ok m2 =>
        rw [hm] at h
        have := ih _ hrest h
        rw [this, dLookup_dUpsert]
        simp [hne]
      | error e => rw [hm] at h; cases h
    | sval sv =>
      simp only [validateAux] at h
      cases hm : checkValue name sv d with
      | ok v2 =>
        rw [hm] at h
        have := ih _ hrest h
        rw [this, dLookup_dUpsert]
        simp [hne]
      | error e => rw [hm] at h; cases h

/-- C6: per-key shape coercion in `validate`.  (a) A key whose schema
default is a single string but whose file value is a list (the option was
assigned more than once) makes validation fail with the multiple-values
ConfigError for that key, provided validation reaches the key (the entries
before it validate).  (b) A key whose schema default is a list but whose
file value is a scalar validates to the scalar wrapped in a one-element
list. -/
theorem claim_C6 (d : SubCfg) (pre post : Cfg) (r0 : Cfg)
    (hpre : validateAux pre d [] = .ok r0) :
    (∀ name s0 xs, dLookup d name = some (.s s0) →
      validate (pre ++ (name, Val.sval (.l xs)) :: post) d
        = .error ⟨name, some (reprJoin xs), some "Multiple values not allowed".data⟩)
    ∧ (∀ name ds v, dLookup d name = some (.l ds) → typeOf v ≠ .list →
        (∀ kv ∈ post, kv.1 ≠ name) → ∀ r,
        validate (pre ++ (name, Val.sval v) :: post) d = .ok r →
        dLookup r name = some (Val.sval (wrapList v))) := by
  constructor
  · intro name s0 xs hd
    have hcv : checkValue name (.l xs) d
        = .error ⟨name, some (reprJoin xs), some "Multiple values not allowed".data⟩ := by
      simp [checkValue, hd, typeOf]
    unfold validate
    rw [validateAux_append, hpre]
    simp [validateAux, hcv]
  · intro name ds v hd hv hpost r hr
    have hcv : checkValue name v d = .ok (wrapList v) := by
      cases v with
      | b x => simp [checkValue, hd, typeOf, wrapList]
      | s x => simp [checkValue, hd, typeOf, wrapList]
      | l xs => exact absurd rfl hv
    unfold validate at hr
    rw [validateAux_append, hpre] at hr
    simp only [validateAux, hcv] at hr
    have := validateAux_lookup_of_not_mem post d
      (dUpsert r0 name (Val.sval (wrapList v))) r name hpost hr
    rw [this, dLookup_dUpsert]
    simp

theorem claim_C6_witness :
    (dLookup [("a".data, SVal.s "d".data), ("b".data, SVal.l [])] "a".data
        = some (.s "d".data)
      ∧ validate [("a".data, Val.sval (.l [.s "1".data, .s "2".data]))]
          [("a".data, SVal.s "d".data), ("b".data, SVal.l [])]
        = .error ⟨"a".data, some "'1', '2'".data, some "Multiple values not allowed".data⟩)
    ∧ (dLookup [("a".data, SVal.s "d".data), ("b".data, SVal.l [])] "b".data
        = some (.l [])
      ∧ validate [("b".data, Val.sval (.s "1".data))]
          [("a".data, SVal.s "d".data), ("b".data, SVal.l [])]
        = .ok [("b".data, Val.sval (.l [.s "1".data]))]
      ∧ dLookup [("b".data, Val.sval (.l [.s "1".data]))] "b".data
        = some (Val.sval (wrapList (.s "1".data)))) :=
  ⟨⟨by decide,
      (claim_C6 [("a".data, SVal.s "d".data), ("b".data, SVal.l [])] [] [] [] rfl).1
        "a".data "d".data [.s "1".data, .s "2".data] (by decide)⟩,
    ⟨by decide, by decide,
      (claim_C6 [("a".data, SVal.s "d".data), ("b".data, SVal.l [])] [] [] [] rfl).2
        "b".data [] (.s "1".data) (by decide) (by decide) (by decide)
        [("b".data, Val.sval (.l [.s "1".data]))] (by decide)⟩⟩

/-! ## Well-formedness of validated mappings -/

theorem mem_dUpsert {α : Type} (m : List (Str × α)) (k : Str) (v : α)
    (kv : Str × α) (h : kv ∈ dUpsert m k v) : kv = (k, v) ∨ kv ∈ m := by
  induction m with
  | nil =>
    simp [dUpsert] at h
    exact Or.inl h
  | cons kv2 rest ih =>
    obtain ⟨k2, v2⟩ := kv2
    by_cases h2 : k2 = k
    · subst h2
      simp [dUpsert] at h
      rcases h with h | h
      · exact Or.inl (by simp [h])
      · exact Or.inr (by simp [h])
    · simp [dUpsert, h2] at h
      rcases h with h | h
      · exact Or.inr (by simp [h])
      · rcases ih h with h3 | h3
        · exact Or.inl h3
        · exact Or.inr (by simp [h3])

theorem typeOf_wrapList (v : SVal) : typeOf (wrapList v) = VType.list := by
  cases v <;> simp [wrapList, typeOf]

theorem checkValue_wf (name : Str) (v v2 : SVal) (d : SubCfg)
    (h : checkValue name v d = .ok v2) : svalOkFor d name v2 := by
  unfold checkValue at h
  cases hd : dLookup d name with
  | none => rw [hd] at h; cases h
  | some dv =>
    simp only [hd] at h
    by_cases h1 : typeOf v = typeOf dv
    · rw [if_pos h1] at h
      cases h
      exact ⟨dv, hd, h1⟩
    · rw [if_neg h1] at h
      by_cases h2 : typeOf dv = VType.list
      · rw [if_pos h2] at h
        cases h
        exact ⟨dv, hd, by rw [typeOf_wrapList, h2]⟩
      · rw [if_neg h2] at h
        by_cases h3 : typeOf v = VType.list
        · rw [if_pos h3] at h; cases h
        · rw [if_neg h3] at h
          by_cases h4 : typeOf dv = VType.bool
          · rw [if_pos h4] at h; cases h
          · rw [if_neg h4] at h; cases h

theorem validateScopeAux_wf (entries : SubCfg) (d : SubCfg) (acc r : SubCfg)
    (h : validateScopeAux entries d acc = .ok r) (hacc : scopeWF acc d) :
    scopeWF r d := by
  induction entries generalizing acc with
  | nil =>
    simp [validateScopeAux] at h
    rw [← h]
    exact hacc
  | cons kv rest ih =>
    obtain ⟨name, v⟩ := kv
    simp only [validateScopeAux] at h
    cases hm : checkValue name v d with
    | ok v2 =>
      rw [hm] at h
      apply ih _ h
      intro kv2 hkv2
      rcases mem_dUpsert acc name v2 kv2 hkv2 with h3 | h3
      · subst h3
        exact checkValue_wf name v v2 d hm
      · exact hacc kv2 h3
    | error e => rw [hm] at h; cases h

theorem validateScope_wf (entries : SubCfg) (d : SubCfg) (r : SubCfg)
    (h : validateScope entries d = .ok r) : scopeWF r d :=
  validateScopeAux_wf entries d [] r h (by intro kv hkv; simp at hkv)

theorem validateAux_wf (entries : Cfg) (d : SubCfg) (acc r : Cfg)
    (h : validateAux entries d acc = .ok r) (hacc : cfgWF acc d) :
    cfgWF r d := by
  induction entries generalizing acc with
  | nil =>
    simp [validateAux] at h
    rw [← h]
    exact hacc
  | cons kv rest ih =>
    obtain ⟨name, v⟩ := kv
    cases v with
    | sub m =>
      simp only [validateAux] at h
      cases hm : validateScope m d with
      | ok m2 =>
        rw [hm] at h
        apply ih _ h
        intro kv2 hkv2
        rcases mem_dUpsert acc name (Val.sub m2) kv2 hkv2 with h3 | h3
        · subst h3
          constructor
          · intro v hv
            cases hv
          · intro m3 hm3
            cases hm3
            exact validateScope_wf m d m2 hm
        · exact hacc kv2 h3
      | error e => rw [hm] at h; cases h
    | sval sv =>
      simp only [validateAux] at h
      cases hm : checkValue name sv d with
      | ok v2 =>
        rw [hm] at h
        apply ih _ h
        intro kv2 hkv2
        rcases mem_dUpsert acc name (Val.sval v2) kv2 hkv2 with h3 | h3
        · subst h3
          constructor
          · intro v hv
            cases hv
            exact checkValue_wf name sv v2 d hm
          · intro m3 hm3
            cases hm3
        · exact hacc kv2 h3
      | error e => rw [hm] at h; cases h

theorem validate_wf (c : Cfg) (d : SubCfg) (r : Cfg)
    (h : validate c d = .ok r) : cfgWF r d :=
  validateAux_wf c d [] r h (by intro kv hkv; simp at hkv)

/-! ## Combiner lemmas -/

theorem baseCombine_lookup (dl : SubCfg) (cli : SubCfg) (f : Cfg) (k : Str) :
    dLookup (baseCombine dl cli f) k = (dLookup dl k).map (fun dv =>
      match dLookup cli k with
      | some cv => Val.sval cv
      | none =>
        match dLookup f k with
        | some fv => fv
        | none => Val.sval dv) := by
  induction dl with
  | nil => simp [baseCombine, dLookup]
  | cons kv rest ih =>
    obtain ⟨name, dv0⟩ := kv
    by_cases h : name = k
    · subst h
      simp [baseCombine, dLookup]
    · simp [baseCombine, dLookup, h, ih]

theorem applyProfileEntries_domain (entries : SubCfg) (cli d : SubCfg) (r r2 : Cfg)
    (hent : ∀ kv ∈ entries, (dLookup d kv.1).isSome = true)
    (h : applyProfileEntries entries cli d r = .ok r2)
    (hr : ∀ k, (dLookup r k).isSome = (dLookup d k).isSome) :
    ∀ k, (dLookup r2 k).isSome = (dLookup d k).isSome := by
  induction entries generalizing r with
  | nil =>
    simp [applyProfileEntries] at h
    rw [← h]
    exact hr
  | cons kv rest ih =>
    obtain ⟨name, v⟩ := kv
    have hname : (dLookup d name).isSome = true := hent (name, v) (by simp)
    have hrest : ∀ kv ∈ rest, (dLookup d kv.1).isSome = true := by
      intro kv2 hkv2
      exact hent kv2 (by simp [hkv2])
    have hupd : ∀ k, (dLookup (dUpsert r name (Val.sval v)) k).isSome
        = (dLookup d k).isSome := by
      intro k
      rw [dLookup_dUpsert]
      by_cases hk : name = k
      · subst hk
        rw [if_pos rfl]
        simp [hname]
      · rw [if_neg hk]
        exact hr k
    simp only [applyProfileEntries] at h
    cases hc : dLookup cli name with
    | none =>
      simp only [hc] at h
      exact ih _ hrest h hupd
    | some cv =>
      simp only [hc] at h
      cases hdv : dLookup d name with
      | none =>
        simp only [hdv] at h
        cases h
      | some dv =>
        simp only [hdv] at h
        by_cases he : cv = dv
        · rw [if_pos he] at h
          exact ih _ hrest h hupd
        · rw [if_neg he] at h
          exact ih _ hrest h hr

theorem applyProfileEntries_shape (entries : SubCfg) (cli d : SubCfg) (r r2 : Cfg)
    (hent : scopeWF entries d)
    (h : applyProfileEntries entries cli d r = .ok r2)
    (hr : ∀ k dv, dLookup d k = some dv →
      ∃ sv, dLookup r k = some (Val.sval sv) ∧ typeOf sv = typeOf dv) :
    ∀ k dv, dLookup d k = some dv →
      ∃ sv, dLookup r2 k = some (Val.sval sv) ∧ typeOf sv = typeOf dv := by
  induction entries generalizing r with
  | nil =>
    simp [applyProfileEntries] at h
    rw [← h]
    exact hr
  | cons kv rest ih =>
    obtain ⟨name, v⟩ := kv
    obtain ⟨dvn, hdvn0, htyn0⟩ := hent (name, v) (by simp)
    have hdvn : dLookup d name = some dvn := hdvn0
    have htyn : typeOf v = typeOf dvn := htyn0
    have hrest : scopeWF rest d := by
      intro kv2 hkv2
      exact hent kv2 (by simp [hkv2])
    have hupd : ∀ k dv, dLookup d k = some dv →
        ∃ sv, dLookup (dUpsert r name (Val.sval v)) k = some (Val.sval sv)
          ∧ typeOf sv = typeOf dv := by
      intro k dv hdk
      rw [dLookup_dUpsert]
      by_cases hk : name = k
      · subst hk
        rw [if_pos rfl]
        rw [hdvn] at hdk
        cases hdk
        exact ⟨v, rfl, htyn⟩
      · rw [if_neg hk]
        exact hr k dv hdk
    simp only [applyProfileEntries] at h
    cases hc : dLookup cli name with
    | none =>
      simp only [hc] at h
      exact ih _ hrest h hupd
    | some cv =>
      simp only [hc, hdvn] at h
      by_cases he : cv = dvn
      · rw [if_pos he] at h
        exact ih _ hrest h hupd
      · rw [if_neg he] at h
        exact ih _ hrest h hr

theorem applyProfileEntries_ok (entries : SubCfg) (cli d : SubCfg)
    (hent : scopeWF entries d) :
    ∀ r, ∃ r2, applyProfileEntries entries cli d r = .ok r2 := by
  induction entries with
  | nil =>
    intro r
    exact ⟨r, rfl⟩
  | cons kv rest ih =>
    obtain ⟨name, v⟩ := kv
    obtain ⟨dvn, hdvn0, _⟩ := hent (name, v) (by simp)
    have hdvn : dLookup d name = some dvn := hdvn0
    have hrest : scopeWF rest d := by
      intro kv2 hkv2
      exact hent kv2 (by simp [hkv2])
    intro r
    simp only [applyProfileEntries]
    cases hc : dLookup cli name with
    | none => exact ih hrest _
    | some cv =>
      simp only [hdvn]
      by_cases he : cv = dvn
      · rw [if_pos he]
        exact ih hrest _
      · rw [if_neg he]
        exact ih hrest _

theorem applyProfiles_domain (ps : List Str) (cli : SubCfg) (cfgfile : Cfg)
    (d : SubCfg) (r r2 : Cfg)
    (hypSub : ∀ p ∈ ps, ∀ m, dLookup cfgfile p = some (Val.sub m) → scopeWF m d)
    (h : applyProfiles ps cli cfgfile d r = .ok r2)
    (hr : ∀ k, (dLookup r k).isSome = (dLookup d k).isSome) :
    ∀ k, (dLookup r2 k).isSome = (dLookup d k).isSome := by
  induction ps generalizing r with
  | nil =>
    simp [applyProfiles] at h
    rw [← h]
    exact hr
  | cons p rest ih =>
    have hrest : ∀ p2 ∈ rest, ∀ m, dLookup cfgfile p2 = some (Val.sub m) → scopeWF m d := by
      intro p2 hp2
      exact hypSub p2 (by simp [hp2])
    simp only [applyProfiles] at h
    cases hf : dLookup cfgfile p with
    | none =>
      simp only [hf] at h
      cases h
    | some val =>
      cases val with
      | sval sv =>
        simp only [hf] at h
        cases h
      | sub m =>
        simp only [hf] at h
        have hm : scopeWF m d := hypSub p (by simp) m hf
        cases hap : applyProfileEntries m cli d r with
        | error e =>
          simp only [hap] at h
          cases h
        | ok rmid =>
          simp only [hap] at h
          have hentd : ∀ kv ∈ m, (dLookup d kv.1).isSome = true := by
            intro kv hkv
            obtain ⟨dv, hdv, _⟩ := hm kv hkv
            rw [hdv]
            rfl
          exact ih _ hrest h (applyProfileEntries_domain m cli d r rmid hentd hap hr)

theorem applyProfiles_shape (ps : List Str) (cli : SubCfg) (cfgfile : Cfg)
    (d : SubCfg) (r r2 : Cfg)
    (hypSub : ∀ p ∈ ps, ∀ m, dLookup cfgfile p = some (Val.sub m) → scopeWF m d)
    (h : applyProfiles ps cli cfgfile d r = .ok r2)
    (hr : ∀ k dv, dLookup d k = some dv →
      ∃ sv, dLookup r k = some (Val.sval sv) ∧ typeOf sv = typeOf dv) :
    ∀ k dv, dLookup d k = some dv →
      ∃ sv, dLookup r2 k = some (Val.sval sv) ∧ typeOf sv = typeOf dv := by
  induction ps generalizing r with
  | nil =>
    simp [applyProfiles] at h
    rw [← h]
    exact hr
  | cons p rest ih =>
    have hrest : ∀ p2 ∈ rest, ∀ m, dLookup cfgfile p2 = some (Val.sub m) → scopeWF m d := by
      intro p2 hp2
      exact hypSub p2 (by simp [hp2])
    simp only [applyProfiles] at h
    cases hf : dLookup cfgfile p with
    | none =>
      simp only [hf] at h
      cases h
    | some val =>
      cases val with
      | sval sv =>
        simp only [hf] at h
        cases h
      | sub m =>
        simp only [hf] at h
        have hm : scopeWF m d := hypSub p (by simp) m hf
        cases hap : applyProfileEntries m cli d r with
        | error e =>
          simp only [hap] at h
          cases h
        | ok rmid =>
          simp only [hap] at h
          exact ih _ hrest h (applyProfileEntries_shape m cli d r rmid hm hap hr)

theorem applyProfiles_err (ps : List Str) (cli : SubCfg) (cfgfile : Cfg)
    (d : SubCfg) (r : Cfg)
    (hypP : ∀ p ∈ ps, (match dLookup cfgfile p with
      | some (Val.sval _) => False
      | some (Val.sub m) => scopeWF m d
      | none => True)) :
    ((∃ e, applyProfiles ps cli cfgfile d r = .error e)
      ↔ ∃ p ∈ ps, dLookup cfgfile p = none)
    ∧ (∀ e, applyProfiles ps cli cfgfile d r = .error e →
        ∃ p ∈ ps, dLookup cfgfile p = none
          ∧ e = .config ⟨p, none, some "No such profile".data⟩) := by
  revert hypP
  induction ps generalizing r with
  | nil =>
    intro hypP
    refine ⟨⟨?_, ?_⟩, ?_⟩
    · rintro ⟨e, he⟩
      simp [applyProfiles] at he
    · rintro ⟨p, hp, _⟩
      simp at hp
    · intro e he
      simp [applyProfiles] at he
  | cons p rest ih =>
    intro hypP
    have hp := hypP p (by simp)
    have hypRest : ∀ p2 ∈ rest, (match dLookup cfgfile p2 with
        | some (Val.sval _) => False
        | some (Val.sub m) => scopeWF m d
        | none => True) := by
      intro p2 hp2
      exact hypP p2 (by simp [hp2])
    cases hf : dLookup cfgfile p with
    | none =>
      have happ : applyProfiles (p :: rest) cli cfgfile d r
          = .error (.config ⟨p, none, some "No such profile".data⟩) := by
        simp [applyProfiles, hf]
      refine ⟨⟨?_, ?_⟩, ?_⟩
      · intro _
        exact ⟨p, by simp, hf⟩
      · intro _
        exact ⟨_, happ⟩
      · intro e he
        rw [happ] at he
        injection he with he2
        exact ⟨p, by simp, hf, he2.symm⟩
    | some val =>
      cases val with
      | sval sv =>
        simp only [hf] at hp
      | sub m =>
        simp only [hf] at hp
        obtain ⟨rmid, hap⟩ := applyProfileEntries_ok m cli d hp r
        have happ : applyProfiles (p :: rest) cli cfgfile d r
            = applyProfiles rest cli cfgfile d rmid := by
          simp [applyProfiles, hf, hap]
        obtain ⟨ihiff, iherr⟩ := ih rmid hypRest
        refine ⟨⟨?_, ?_⟩, ?_⟩
        · rintro ⟨e, he⟩
          rw [happ] at he
          obtain ⟨p2, hp2, hnone⟩ := ihiff.mp ⟨e, he⟩
          exact ⟨p2, by simp [hp2], hnone⟩
        · rintro ⟨p2, hp2, hnone⟩
          rw [happ]
          apply ihiff.mpr
          rcases List.mem_cons.mp hp2 with h2 | h2
          · subst h2
            rw [hf] at hnone
            cases hnone
          · exact ⟨p2, h2, hnone⟩
        · intro e he
          rw [happ] at he
          obtain ⟨p2, hp2, hnone, he2⟩ := iherr e he
          exact ⟨p2, by simp [hp2], hnone, he2⟩

/-- C1 counterexample: schema has `verbose=false`, the file profile `P` sets
`verbose` true, the CLI explicitly sets `verbose=false` (equal to the
default) and selects `P`.  The profile loop skips an override only when the
CLI value DIFFERS from the default, so the resolved `verbose` is true, not
false as the claim demands. -/
theorem claim_C1_counterexample :
    combine [("verbose".data, SVal.b false), (profileKey, SVal.l [.s "P".data])]
        [("P".data, Val.sub [("verbose".data, SVal.b true)])]
        [("verbose".data, SVal.b false)]
      = .ok [("verbose".data, Val.sval (SVal.b true))]
    ∧ dLookup ([("verbose".data, Val.sval (SVal.b true))] : Cfg) "verbose".data
        ≠ some (Val.sval (SVal.b false)) := by
  decide

/-- C1 (amended): in the scenario of the claim the resolved `verbose` is
TRUE for every profile name: a selected profile override beats an explicit
CLI value whenever that CLI value equals the schema default; the explicit
CLI value wins only when it differs from the default. -/
theorem claim_C1 (P : Str) :
    combine [("verbose".data, SVal.b false), (profileKey, SVal.l [.s P])]
        [(P, Val.sub [("verbose".data, SVal.b true)])]
        [("verbose".data, SVal.b false)]
      = .ok [("verbose".data, Val.sval (SVal.b true))] := by
  simp [combine, profileNames, baseCombine, applyProfiles, applyProfileEntries,
    dLookup, dUpsert, profileKey]

/-- C2: whenever combine succeeds on a validated file mapping, the resolved
configuration has an entry exactly for every schema key: applying selected
profiles never adds a key outside the schema and never loses one. -/
theorem claim_C2 (cli : SubCfg) (raw cfgfile : Cfg) (d : SubCfg) (r : Cfg)
    (hv : validate raw d = .ok cfgfile)
    (hc : combine cli cfgfile d = .ok r) :
    ∀ k, (dLookup r k).isSome = (dLookup d k).isSome := by
  have hwf : cfgWF cfgfile d := validate_wf raw d cfgfile hv
  have hypSub : ∀ p ∈ profileNames cli, ∀ m,
      dLookup cfgfile p = some (Val.sub m) → scopeWF m d := by
    intro p _ m hf
    have hmem := dLookup_mem cfgfile p (Val.sub m) hf
    exact (hwf (p, Val.sub m) hmem).2 m rfl
  have hbase : ∀ k, (dLookup (baseCombine d cli cfgfile) k).isSome
      = (dLookup d k).isSome := by
    intro k
    rw [baseCombine_lookup]
    cases dLookup d k <;> simp
  unfold combine at hc
  exact applyProfiles_domain (profileNames cli) cli cfgfile d _ r hypSub hc hbase

theorem claim_C2_witness :
    validate [("x".data, Val.sval (SVal.s "v".data))]
        [("x".data, SVal.s "d".data), ("y".data, SVal.b false)]
      = .ok [("x".data, Val.sval (SVal.s "v".data))]
    ∧ combine [] [("x".data, Val.sval (SVal.s "v".data))]
        [("x".data, SVal.s "d".data), ("y".data, SVal.b false)]
      = .ok [("x".data, Val.sval (SVal.s "v".data)), ("y".data, Val.sval (SVal.b false))]
    ∧ ∀ k, (dLookup [("x".data, Val.sval (SVal.s "v".data)),
          ("y".data, Val.sval (SVal.b false))] k).isSome
        = (dLookup [("x".data, SVal.s "d".data), ("y".data, SVal.b false)] k).isSome :=
  ⟨by decide, by decide,
    claim_C2 [] [("x".data, Val.sval (SVal.s "v".data))]
      [("x".data, Val.sval (SVal.s "v".data))]
      [("x".data, SVal.s "d".data), ("y".data, SVal.b false)]
      [("x".data, Val.sval (SVal.s "v".data)), ("y".data, Val.sval (SVal.b false))]
      (by decide) (by decide)⟩

/-- C3 counterexample: a validated mapping may bind a profile under a name
that is also a schema key (`validate` checks profiles before the schema
lookup); the baseline pass of combine then copies that profile dictionary
into the result, whose value for the key is a sub-mapping rather than a
value of the schema shape. -/
theorem claim_C3_counterexample :
    validate [("x".data, Val.sub [("y".data, SVal.s "v".data)])]
        [("x".data, SVal.s "d".data), ("y".data, SVal.s "e".data)]
      = .ok [("x".data, Val.sub [("y".data, SVal.s "v".data)])]
    ∧ combine [] [("x".data, Val.sub [("y".data, SVal.s "v".data)])]
        [("x".data, SVal.s "d".data), ("y".data, SVal.s "e".data)]
      = .ok [("x".data, Val.sub [("y".data, SVal.s "v".data)]),
          ("y".data, Val.sval (SVal.s "e".data))]
    ∧ valMatchesShape
        (dLookup [("x".data, Val.sub [("y".data, SVal.s "v".data)]),
          ("y".data, Val.sval (SVal.s "e".data))] "x".data)
        (dLookup [("x".data, SVal.s "d".data), ("y".data, SVal.s "e".data)] "x".data)
      = false := by
  decide

/-- C3 (amended): when additionally the CLI values have the schema shapes
(the CLI interface guarantees this) and no profile in the validated mapping
shares its name with a schema key, every entry of the resolved
configuration has the shape of its schema default. -/
theorem claim_C3 (cli : SubCfg) (raw cfgfile : Cfg) (d : SubCfg) (r : Cfg)
    (hv : validate raw d = .ok cfgfile)
    (hcli : cliShapeWF cli d)
    (hnc : noProfileKeyCollision cfgfile d)
    (hc : combine cli cfgfile d = .ok r) :
    ∀ k, (dLookup d k).isSome = true →
      valMatchesShape (dLookup r k) (dLookup d k) = true := by
  have hwf : cfgWF cfgfile d := validate_wf raw d cfgfile hv
  have hypSub : ∀ p ∈ profileNames cli, ∀ m,
      dLookup cfgfile p = some (Val.sub m) → scopeWF m d := by
    intro p _ m hf
    have hmem := dLookup_mem cfgfile p (Val.sub m) hf
    exact (hwf (p, Val.sub m) hmem).2 m rfl
  have hbase : ∀ k dv, dLookup d k = some dv →
      ∃ sv, dLookup (baseCombine d cli cfgfile) k = some (Val.sval sv)
        ∧ typeOf sv = typeOf dv := by
    intro k dv hdk
    rw [baseCombine_lookup, hdk]
    cases hcl : dLookup cli k with
    | some cv =>
      have hmem := dLookup_mem cli k cv hcl
      have hty := hcli (k, cv) hmem dv hdk
      exact ⟨cv, by simp, hty⟩
    | none =>
      simp only [Option.map_some]
      cases hcf : dLookup cfgfile k with
      | none => exact ⟨dv, by simp, rfl⟩
      | some fv =>
        cases fv with
        | sub m =>
          have hmem := dLookup_mem cfgfile k (Val.sub m) hcf
          have hnone := hnc (k, Val.sub m) hmem (by rfl)
          rw [hnone] at hdk
          cases hdk
        | sval sv =>
          have hmem := dLookup_mem cfgfile k (Val.sval sv) hcf
          obtain ⟨dv2, hdv2, hty⟩ := (hwf (k, Val.sval sv) hmem).1 sv rfl
          rw [hdk] at hdv2
          injection hdv2 with hdv3
          refine ⟨sv, by simp, ?_⟩
          rw [hty, hdv3]
  unfold combine at hc
  have hfinal := applyProfiles_shape (profileNames cli) cli cfgfile d _ r hypSub hc hbase
  intro k hk
  obtain ⟨dv, hdv⟩ := Option.isSome_iff_exists.mp hk
  obtain ⟨sv, hsv, hty⟩ := hfinal k dv hdv
  rw [hsv, hdv]
  simp [valMatchesShape, hty]

theorem claim_C3_witness :
    validate [("x".data, Val.sval (SVal.s "v".data))] [("x".data, SVal.s "d".data)]
      = .ok [("x".data, Val.sval (SVal.s "v".data))]
    ∧ noProfileKeyCollision [("x".data, Val.sval (SVal.s "v".data))]
        [("x".data, SVal.s "d".data)]
    ∧ combine [] [("x".data, Val.sval (SVal.s "v".data))] [("x".data, SVal.s "d".data)]
      = .ok [("x".data, Val.sval (SVal.s "v".data))]
    ∧ ∀ k, (dLookup [("x".data, SVal.s "d".data)] k).isSome = true →
        valMatchesShape (dLookup [("x".data, Val.sval (SVal.s "v".data))] k)
          (dLookup [("x".data, SVal.s "d".data)] k) = true :=
  ⟨by decide, by decide, by decide,
    claim_C3 [] [("x".data, Val.sval (SVal.s "v".data))]
      [("x".data, Val.sval (SVal.s "v".data))] [("x".data, SVal.s "d".data)]
      [("x".data, Val.sval (SVal.s "v".data))]
      (by decide) (by intro kv hkv; simp at hkv) (by decide) (by decide)⟩

/-- C5 counterexample: a selected profile name that IS present at the top
level but bound to a non-dictionary value (a validated string option) makes
the profile loop call `.items()` on a string, an AttributeError — a second
failure mode beyond the no-such-profile ConfigError. -/
theorem claim_C5_counterexample :
    validate [("x".data, Val.sval (SVal.s "hello".data))] [("x".data, SVal.s "d".data)]
      = .ok [("x".data, Val.sval (SVal.s "hello".data))]
    ∧ combine [(profileKey, SVal.l [.s "x".data])]
        [("x".data, Val.sval (SVal.s "hello".data))] [("x".data, SVal.s "d".data)]
      = .error .attrError
    ∧ CombineErr.attrError
        ≠ .config ⟨"x".data, none, some "No such profile".data⟩ := by
  decide

/-- C5 (amended): on a validated file mapping, and provided every selected
profile name that is present at the top level is bound to a profile
sub-mapping (and the CLI profile entry is a list of names, as the CLI
interface guarantees), combine fails exactly when some selected name is
absent from the top level, and the only failure is
`ConfigError(name, msg=...)` carrying the missing profile name and the
no-such-profile reason.  When a selected name is present but bound to a
non-profile value, combine instead fails with an AttributeError. -/
theorem claim_C5 (cli : SubCfg) (raw cfgfile : Cfg) (d : SubCfg)
    (hv : validate raw d = .ok cfgfile)
    (hprof : cliProfileWFb cli = true)
    (hsubs : selectedAreSubs cli cfgfile = true) :
    ((∃ e, combine cli cfgfile d = .error e)
      ↔ ∃ p ∈ profileNames cli, dLookup cfgfile p = none)
    ∧ (∀ e, combine cli cfgfile d = .error e →
        ∃ p ∈ profileNames cli, dLookup cfgfile p = none
          ∧ e = .config ⟨p, none, some "No such profile".data⟩) := by
  have hwf : cfgWF cfgfile d := validate_wf raw d cfgfile hv
  have hypP : ∀ p ∈ profileNames cli, (match dLookup cfgfile p with
      | some (Val.sval _) => False
      | some (Val.sub m) => scopeWF m d
      | none => True) := by
    intro p hp
    unfold selectedAreSubs at hsubs
    have hb := List.all_eq_true.mp hsubs p hp
    cases hf : dLookup cfgfile p with
    | none => trivial
    | some val =>
      cases val with
      | sval sv =>
        simp [hf] at hb
      | sub m =>
        simp only [hf]
        have hmem := dLookup_mem cfgfile p (Val.sub m) hf
        exact (hwf (p, Val.sub m) hmem).2 m rfl
  unfold combine
  exact applyProfiles_err (profileNames cli) cli cfgfile d (baseCombine d cli cfgfile) hypP

theorem claim_C5_witness :
    (validate ([] : Cfg) ([] : SubCfg) = .ok []
      ∧ cliProfileWFb [(profileKey, SVal.l [.s "q".data])] = true
      ∧ selectedAreSubs [(profileKey, SVal.l [.s "q".data])] [] = true)
    ∧ ((∃ e, combine [(profileKey, SVal.l [.s "q".data])] [] [] = .error e)
        ↔ ∃ p ∈ profileNames [(profileKey, SVal.l [.s "q".data])],
            dLookup ([] : Cfg) p = none)
    ∧ (∀ e, combine [(profileKey, SVal.l [.s "q".data])] [] [] = .error e →
        ∃ p ∈ profileNames [(profileKey, SVal.l [.s "q".data])],
          dLookup ([] : Cfg) p = none
            ∧ e = .config ⟨p, none, some "No such profile".data⟩) :=
  ⟨⟨by decide, by decide, by decide⟩,
    (claim_C5 [(profileKey, SVal.l [.s "q".data])] [] [] []
        (by decide) (by decide) (by decide)).1,
    (claim_C5 [(profileKey, SVal.l [.s "q".data])] [] [] []
        (by decide) (by decide) (by decide)).2⟩
